import Mathlib

/-!
Verification of the `iqwerty` virtual-DOM framework (`dom.js`).

This file gives a shallow embedding of the parts of `dom.js` that the
checked claims are about:

* the reactive observer write path (`_observe`, `_patchObjectMutators`);
* the global application state accessor (`APP_STATE`);
* component instantiation and the per-element loop of `Load`
  (`_saferInstantiateComponent`);
* the event-handler context bookkeeping (`_callIqEvent`);
* the template evaluation pipeline (`_saferEval`, `_saferEvalTemplate`,
  `_handleFor`, `_handleIf`, `_prepareDirectives`, `_evaluateTemplate`);
* the diff/patch algorithm (`_nodeChanged`, `_patchFinalNodeWithData`,
  `_patch`).

JavaScript values are modelled by an inductive `JSValue`; object identity
is modelled by a numeric id carried on the object constructor, and `NaN`
is outside the integer model of numbers.  The sandboxed expression
evaluator (`new Function` + `with`) is an external collaborator of the
core; it is modelled as an oracle (`Evaluator`) giving, for each source
string and context, either the produced value or the fact that the
evaluation threw.  Exceptions are modelled with `Except String`.
-/

/-- A JavaScript runtime value.  Object references are represented by a
numeric identity together with the name of the constructor of the object
(`Array`, `Map`, `Set`, plain objects, ...). -/
inductive JSValue where
  | vUndefined
  | vNull
  | vBool (b : Bool)
  | vNum (n : Int)
  | vStr (s : String)
  | vObj (id : Nat) (klass : String)
deriving DecidableEq, Repr

/-- JavaScript truthiness of a value (`NaN` is outside the model). -/
def JSValue.truthy : JSValue → Bool
  | .vUndefined => false
  | .vNull => false
  | .vBool b => b
  | .vNum n => n != 0
  | .vStr s => s != ""
  | .vObj _ _ => true

/-- Whether the value is `null` or `undefined`: exactly the values on
which a member access such as `value.constructor` throws a `TypeError`. -/
def JSValue.isNullish : JSValue → Bool
  | .vUndefined => true
  | .vNull => true
  | _ => false

/-- A JavaScript object seen as a property map: the component controller
used as an evaluation context, or the global state storage.  Keys are
unique in any context built by the framework. -/
abbrev Context := List (String × JSValue)

/-- The property names of a context object. -/
def ctxKeys (c : Context) : List String := c.map Prod.fst

/-- Property read (`obj[k]`): the value at the first (unique) entry
with that name. -/
def ctxGet : Context → String → Option JSValue
  | [], _ => none
  | kv :: rest, k => if kv.fst == k then some kv.snd else ctxGet rest k

/-- Property write (`obj[k] = v`): updates the property in place when it
exists, otherwise appends a new property at the end (JS property
insertion order). -/
def ctxSet : Context → String → JSValue → Context
  | [], k, v => [(k, v)]
  | kv :: rest, k, v => if kv.fst == k then (k, v) :: rest else kv :: ctxSet rest k v

/-- Property removal (`delete obj[k]`): removes the (unique) property
with that name. -/
def ctxDelete : Context → String → Context
  | [], _ => []
  | kv :: rest, k => if kv.fst == k then rest else kv :: ctxDelete rest k

/-! ### Reactive observer (`_observe`, `_patchObjectMutators`, dom.js 278-371) -/

/-- The `MUTATORS` table of dom.js (lines 101-123): the mutating methods
that `_patchObjectMutators` wraps, per constructor name. -/
def MUTATORS : List (String × List String) :=
  [("Array", ["copyWithin", "fill", "pop", "push", "reverse", "shift",
              "sort", "splice", "unshift"]),
   ("Map", ["clear", "delete", "set"]),
   ("Set", ["add", "clear", "delete"])]

/-- Whether `_patchObjectMutators(obj, action)` (dom.js 352-371) throws:
its first statement reads `obj.constructor`, which throws a `TypeError`
when `obj` is `null` or `undefined`.  For any other value the constructor
lookup succeeds (primitives are boxed) and the `MUTATORS` lookup plus the
method wrapping never throw, and never invoke `action`. -/
def patchObjectMutatorsThrows (v : JSValue) : Bool := v.isNullish

/-- Result of running the property setter installed by `_observe`. -/
structure SetResult where
  shadow : JSValue
  actionCalls : Nat
  threw : Bool
deriving DecidableEq, Repr

/-- The `set(value)` accessor installed by `_observe` (dom.js 307-330)
on an intercepted property whose shadow value is `old`:

* `const old = obj[IQ_SYM][prop]` and `if(value === old) return;` —
  an identical assignment does nothing;
* otherwise the shadow store is updated (`obj[IQ_SYM][prop] = value`),
  then `action()` is invoked (exactly once), then
  `_patchObjectMutators(value, action)` runs unconditionally — unlike the
  initial-observation path (line 335), there is no `!= null` guard here,
  so a nullish new value makes the setter throw after the callback. -/
def observeSet (old value : JSValue) : SetResult :=
  if value = old then
    { shadow := old, actionCalls := 0, threw := false }
  else
    { shadow := value, actionCalls := 1, threw := patchObjectMutatorsThrows value }

/-! ### Global application state (`APP_STATE`, dom.js 126-150) -/

/-- An observable effect of an `APP_STATE` method: a write to
`APP_STATE_STORAGE`, or a full-document reload
(`iqwerty.dom.Load(document.body)`). -/
inductive AppEffect where
  | storageWrite
  | fullReload
deriving DecidableEq, Repr

/-- Result of an `APP_STATE` method call: the new storage, the returned
value, and the effects in execution order. -/
structure AppStateResult where
  storage : Context
  ret : Option JSValue
  effects : List AppEffect
deriving DecidableEq, Repr

/-- `APP_STATE.update(key, value)` (dom.js 133-138): stores the value,
then reloads the whole document. -/
def appStateUpdate (st : Context) (k : String) (v : JSValue) : AppStateResult :=
  { storage := ctxSet st k v
    ret := none
    effects := [.storageWrite, .fullReload] }

/-- `APP_STATE.delete(key)` (dom.js 140-145): removes the key, then
reloads the whole document. -/
def appStateDelete (st : Context) (k : String) : AppStateResult :=
  { storage := ctxDelete st k
    ret := none
    effects := [.storageWrite, .fullReload] }

/-- `APP_STATE.get(key)` (dom.js 147-149): returns the stored value and
has no effects. -/
def appStateGet (st : Context) (k : String) : AppStateResult :=
  { storage := st
    ret := ctxGet st k
    effects := [] }

/-- The method names defined on the `APP_STATE` object literal
(dom.js 132-150), in source order. -/
def appStateMethodNames : List String := ["update", "delete", "get"]

/-! ### Component instantiation and the `Load` loop (dom.js 235-271, 662-753) -/

/-- Outcome of `eval('new ClassName(inject)')` for a component class:
either the evaluation throws (class missing, invalid code, constructor
error), or it returns an object that does or does not carry the `$iq`
base-contract metadata. -/
inductive CtorOutcome where
  | throws
  | returns (hasIqMeta : Bool)
deriving DecidableEq, Repr

/-- `_saferInstantiateComponent` (dom.js 235-271): rejects class names
without an uppercase letter, catches and reports a throwing `eval` but
then rethrows, and throws when the constructed object lacks the `$iq`
metadata property.  All three failures leave `Load` via an exception. -/
def saferInstantiateComponent (name : String) (ctor : CtorOutcome) : Except String Unit :=
  if !(name.data.any Char.isUpper) then
    .error ("invalid class name: " ++ name)
  else
    match ctor with
    | .throws => .error ("constructor failed: " ++ name)
    | .returns false => .error ("name collision, missing base metadata: " ++ name)
    | .returns true => .ok ()

/-- A component-tagged element as seen by the `iqComp.forEach` loop of
`Load`: the class name derived from its tag, the behaviour of its
constructor, and whether a controller is already cached on the element
metadata (in which case instantiation is skipped, dom.js 678-682). -/
structure CompElem where
  className : String
  ctor : CtorOutcome
  cached : Bool
deriving DecidableEq, Repr

/-- The instantiation step of one iteration of the `Load` loop:
a cached controller is reused, otherwise `_saferInstantiateComponent`
runs (dom.js 678-709). -/
def instantiateStep (c : CompElem) : Except String Unit :=
  if c.cached then .ok () else saferInstantiateComponent c.className c.ctor

/-- Whether the instantiation step of an element succeeds. -/
def instOk (c : CompElem) : Bool :=
  match instantiateStep c with
  | .ok _ => true
  | .error _ => false

/-- The error message of a failing instantiation step, if any. -/
def instErr (c : CompElem) : Option String :=
  match instantiateStep c with
  | .ok _ => none
  | .error e => some e

/-- The `iqComp.forEach(compEl => ...)` loop of `Load` (dom.js 666-752)
restricted to its control flow: elements are processed in document
order; the call `_saferInstantiateComponent` (line 695) is not inside
any `try`, so a failing instantiation throws out of the `forEach`
callback, which aborts the whole loop.  The result is the list of
elements whose render completed, together with the exception that
escaped `Load`, if any. -/
def loadRun : List CompElem → List String × Option String
  | [] => ([], none)
  | c :: cs =>
    match instantiateStep c with
    | .error e => ([], some e)
    | .ok _ =>
      let r := loadRun cs
      (c.className :: r.fst, r.snd)

/-! ### Event-handler context bookkeeping (`_callIqEvent`, dom.js 520-540) -/

/-- `_callIqEvent(datasetEventLabel, event, node, context)`: copies the
local iteration bindings of the node onto the controller context, adds
the special `$iqEvent` variable, runs `_saferEval` on the handler
expression (which catches every exception internally, so control always
reaches the cleanup), then `delete`s the local binding keys and
`$iqEvent` from the context.  The handler evaluation itself is modelled
as pure; only the context bookkeeping is of interest here. -/
def callIqEvent (localCxt : List (String × JSValue)) (event : JSValue)
    (ctx : Context) : Context :=
  let c1 := localCxt.foldl (fun a kv => ctxSet a kv.fst kv.snd) ctx
  let c2 := ctxSet c1 "$iqEvent" event
  let c3 := localCxt.foldl (fun a kv => ctxDelete a kv.fst) c2
  ctxDelete c3 "$iqEvent"

/-! ### The DOM tree model -/

/-- The per-node side table stored under the hidden `IQ_SYM` symbol:
the set of input names (`IQ_SYM_INPUTS`) — absent on the fresh metadata
map that `_handleFor` installs on generated clones — and the local
iteration bindings (`IQ_SYM_LOCAL_CXT`). -/
structure NodeMeta where
  inputs : Option (List String)
  localCxt : List (String × JSValue)
deriving DecidableEq, Repr

/-- A DOM node: text (nodeType 3), comment (nodeType 8) or element
(nodeType 1) with its attribute list (unique names in document order),
optional `IQ_SYM` metadata and child nodes.  Component input values set
as element JS properties live outside the tree model; only their names
are tracked (in the metadata, and as patch operations). -/
inductive DomNode where
  | text (content : String)
  | comment (content : String)
  | elem (tag : String) (attrs : List (String × String))
      (meta : Option NodeMeta) (children : List DomNode)
deriving Repr

/-- `node.nodeType`. -/
def nodeTypeOf : DomNode → Nat
  | .text _ => 3
  | .comment _ => 8
  | .elem _ _ _ _ => 1

/-- `node.tagName`: defined for elements only (`undefined`, modelled as
`none`, on text and comment nodes). -/
def tagNameOf : DomNode → Option String
  | .elem t _ _ _ => some t
  | _ => none

mutual
/-- `node.textContent`: the content of a text or comment node, the
concatenated descendant text of an element. -/
def textContentOf : DomNode → String
  | .text s => s
  | .comment s => s
  | .elem _ _ _ cs => textContentList cs
def textContentList : List DomNode → String
  | [] => ""
  | c :: cs => textContentOf c ++ textContentList cs
end

/-- The attribute names of an attribute list, in order. -/
def attrNames (attrs : List (String × String)) : List String :=
  attrs.map Prod.fst

/-- `node.getAttribute(name)` over an attribute list. -/
def getAttr : List (String × String) → String → Option String
  | [], _ => none
  | a :: rest, name => if a.fst == name then some a.snd else getAttr rest name

/-- `node.setAttribute(name, value)` over an attribute list: updates the
(unique) attribute in place when present, otherwise appends it. -/
def setAttrList : List (String × String) → String → String → List (String × String)
  | [], name, value => [(name, value)]
  | a :: rest, name, value =>
    if a.fst == name then (name, value) :: rest
    else a :: setAttrList rest name value

/-- `node.removeAttribute(name)` over an attribute list. -/
def removeAttr : List (String × String) → String → List (String × String)
  | [], _ => []
  | a :: rest, name => if a.fst == name then rest else a :: removeAttr rest name

/-- The attributes of an element node (empty for text and comments). -/
def attrsOf : DomNode → List (String × String)
  | .elem _ attrs _ _ => attrs
  | _ => []

/-- The `IQ_SYM` metadata of a node, if any. -/
def metaOf : DomNode → Option NodeMeta
  | .elem _ _ m _ => m
  | _ => none

/-- Whether a character list starts with the given pattern. -/
def listStartsWith : List Char → List Char → Bool
  | _, [] => true
  | [], _ :: _ => false
  | c :: cs, p :: ps => c == p && listStartsWith cs ps

/-- Whether a character list contains the characters `iq.` as a
contiguous run. -/
def hasIqDotChars : List Char → Bool
  | [] => false
  | c :: cs => listStartsWith (c :: cs) ('i' :: 'q' :: '.' :: []) || hasIqDotChars cs

/-- Test used by the evaluator and the patcher to skip framework
attributes: `name.indexOf('iq.') !== -1` (dom.js 575 and 612). -/
def nameHasIqDot (name : String) : Bool :=
  hasIqDotChars name.data

/-! ### The differ (`_nodeChanged`, dom.js 597-601) -/

/-- `_nodeChanged(prev, cur)` translated literally from dom.js 598-600:
`prev.nodeType !== cur.nodeType || prev.nodeType === Node.TEXT_NODE &&
prev.textContent !== cur.textContent || prev.tagName !== cur.tagName`
(in JavaScript `&&` binds tighter than `||`). -/
def nodeChanged (prev cur : DomNode) : Bool :=
  (nodeTypeOf prev != nodeTypeOf cur)
  || ((nodeTypeOf prev == 3) && (textContentOf prev != textContentOf cur))
  || (tagNameOf prev != tagNameOf cur)

/-- The replacement condition written from the (amended) specification
words, for comparison with `nodeChanged`: node categories differ, or
both are text nodes with differing text content, or both are element
nodes with differing tag names; comment content is ignored. -/
def changedSpec (prev cur : DomNode) : Bool :=
  (nodeTypeOf prev != nodeTypeOf cur)
  || (match prev, cur with
      | .text a, .text b => a != b
      | _, _ => false)
  || (match prev, cur with
      | .elem ta _ _ _, .elem tb _ _ _ => ta != tb
      | _, _ => false)

/-! ### The patcher (`_patch`, `_patchFinalNodeWithData`, dom.js 609-654) -/

/-- A DOM mutation performed by the patcher, in execution order:
attribute write, wholesale node replacement, append, removal, input
property copy, metadata overwrite.  The patcher contains no text-content
assignment, so no text-write operation exists. -/
inductive PatchOp where
  | setAttr (name value : String)
  | replaceNode
  | appendNode
  | removeNode
  | setInput (name : String)
  | setMeta
deriving DecidableEq, Repr

/-- `_patchFinalNodeWithData(node, from)` (dom.js 609-629): copies onto
the committed element every non-framework attribute of the incoming
element whose value differs (write-skip via `getAttribute`), copies the
recorded input properties when the incoming metadata carries an inputs
set, and always overwrites the committed metadata with the incoming
one.  `patchAttrStep` is the body of its attribute loop (dom.js
610-616): skip framework attributes, skip value-equal attributes, write
the rest. -/
def patchAttrStep (acc : List (String × String) × List PatchOp)
    (a : String × String) : List (String × String) × List PatchOp :=
  if nameHasIqDot a.fst then acc
  else if getAttr acc.fst a.fst == some a.snd then acc
  else (setAttrList acc.fst a.fst a.snd, acc.snd ++ [PatchOp.setAttr a.fst a.snd])

/-- The rest of `_patchFinalNodeWithData`; see `patchAttrStep`. -/
def patchFinalNodeWithData (node fromN : DomNode) : DomNode × List PatchOp :=
  match node, fromN with
  | .elem t attrs _ cs, .elem _ fattrs fmeta _ =>
    let folded := fattrs.foldl patchAttrStep (attrs, [])
    let inputOps : List PatchOp :=
      match fmeta with
      | some md =>
        match md.inputs with
        | some keys => keys.map PatchOp.setInput
        | none => []
      | none => []
    (.elem t folded.fst fmeta cs, folded.snd ++ inputOps ++ [.setMeta])
  | n, _ => (n, [])

mutual
/-- The recursive step of `_patch` for an aligned, unchanged element
pair (dom.js 648-651): recurse into the children, then run
`_patchFinalNodeWithData` on the committed node. -/
def patchNode : DomNode → DomNode → DomNode × List PatchOp
  | .elem t attrs m cs, .elem ft fattrs fmeta fcs =>
    let pc := patchChildren cs fcs
    let pd := patchFinalNodeWithData (.elem t attrs m pc.fst) (.elem ft fattrs fmeta fcs)
    (pd.fst, pc.snd ++ pd.snd)
  | n, _ => (n, [])

/-- `_patch(final, from)` (dom.js 636-654) on the two child lists,
walked by index: append when the committed side is exhausted, remove
when the incoming side is, replace wholesale when `_nodeChanged`, and
otherwise recurse (elements only).  Returns the updated committed list
and the mutations performed. -/
def patchChildren : List DomNode → List DomNode → List DomNode × List PatchOp
  | [], [] => ([], [])
  | [], y :: ys =>
    let r := patchChildren [] ys
    (y :: r.fst, .appendNode :: r.snd)
  | _ :: xs, [] =>
    let r := patchChildren xs []
    (r.fst, .removeNode :: r.snd)
  | x :: xs, y :: ys =>
    if nodeChanged x y then
      let r := patchChildren xs ys
      (y :: r.fst, .replaceNode :: r.snd)
    else if nodeTypeOf y == 1 then
      let pn := patchNode x y
      let r := patchChildren xs ys
      (pn.fst :: r.fst, pn.snd ++ r.snd)
    else
      let r := patchChildren xs ys
      (x :: r.fst, r.snd)
end

/-- Whether a patch operation is neither an attribute write nor a
structural mutation: only the metadata overwrite and the input property
copies remain. -/
def PatchOp.isMetaOrInput : PatchOp → Bool
  | .setInput _ => true
  | .setMeta => true
  | _ => false

/-- Uniqueness of a list of attribute names, as a boolean. -/
def nodupKeysB : List String → Bool
  | [] => true
  | k :: ks => !(ks.contains k) && nodupKeysB ks

mutual
/-- Well-formedness of a node as produced by an HTML parser: attribute
names are unique on every element. -/
def wfNode : DomNode → Bool
  | .elem _ attrs _ cs => nodupKeysB (attrNames attrs) && wfList cs
  | _ => true
def wfList : List DomNode → Bool
  | [] => true
  | n :: ns => wfNode n && wfList ns
end

/-! ### The expression evaluator oracle (`_saferEval`, dom.js 188-225) -/

/-- The sandboxed evaluation capability (`new Function` with a `with`
block, dom.js 192-198), abstracted as an oracle over the three code
shapes the framework generates.  Each field returns `none` exactly when
the generated function throws when called on the given context:

* `retE js ctx` — outcome of `return <js>` (`_saferEvalReturn`);
* `tplE tpl ctx` — outcome of the backtick template built by
  `_saferEvalTemplate`;
* `forE expr ctx` — the sequence of per-item loop variable values that
  the program generated by `_handleFor` (dom.js 394-403) pushes to its
  `out` array for the `for(const <expr>)` loop, in yield order. -/
structure Evaluator where
  retE : String → Context → Option JSValue
  tplE : String → Context → Option String
  forE : String → Context → Option (List JSValue)

/-- `_saferEval` wrapped around `_saferEvalReturn` (dom.js 213-215):
a throwing evaluation is caught, logged, and recovered as `undefined`. -/
def saferEvalReturnV (E : Evaluator) (js : String) (ctx : Context) : JSValue :=
  match E.retE js ctx with
  | some v => v
  | none => .vUndefined

/-- Whether `_saferEvalReturn` logged an error for this evaluation. -/
def saferEvalReturnLogged (E : Evaluator) (js : String) (ctx : Context) : Bool :=
  (E.retE js ctx).isNone

/-- `_saferEvalTemplate` (dom.js 223-225): a throwing evaluation is
caught, logged and recovered as `undefined`, and the trailing `|| ''`
turns the falsy results (`undefined`, the empty string) into the empty
string, which is the identity on every string result. -/
def saferEvalTemplateS (E : Evaluator) (tpl : String) (ctx : Context) : String :=
  match E.tplE tpl ctx with
  | some s => s
  | none => ""

/-- Whether `_saferEvalTemplate` logged an error for this evaluation. -/
def saferEvalTemplateLogged (E : Evaluator) (tpl : String) (ctx : Context) : Bool :=
  (E.tplE tpl ctx).isNone

/-! ### Directive bookkeeping (`_prepareDirectives`, dom.js 473-518) -/

/-- Strips a prefix from a character list, returning the remainder when
the prefix matches. -/
def stripPre : List Char → List Char → Option (List Char)
  | [], s => some s
  | _ :: _, [] => none
  | p :: ps, c :: cs => if p = c then stripPre ps cs else none

/-- The dataset key of a directive attribute: an attribute named
`data-iq.<key>` appears in `vnode.dataset` as `iq.<key>`, and
`_prepareDirectives` keeps the keys starting with `iq.` and strips that
namespace (dom.js 474-477). -/
def directiveKey (name : String) : Option String :=
  match stripPre "data-iq.".toList name.toList with
  | some suffix => some (String.mk suffix)
  | none => none

/-- The directive keys of an element, in attribute order: the snapshot
`Object.keys(vnode.dataset).filter(key => key.indexOf(IQ_DIRECTIVE) === 0)`
taken before the directives run. -/
def directiveKeys (attrs : List (String × String)) : List String :=
  attrs.filterMap (fun a => directiveKey a.fst)

/-- `vnode.dataset['iq.<key>']`: the value of the attribute
`data-iq.<key>`. -/
def datasetGet (attrs : List (String × String)) (key : String) : Option String :=
  getAttr attrs ("data-iq." ++ key)

/-- The loop variable of a `for` directive expression (dom.js 392):
`expression.substring(0, expression.indexOf(' '))`, which is the text
before the first space, and the empty string when there is no space. -/
def forVariable (expr : String) : String :=
  if expr.data.any (fun c => c == ' ') then
    String.mk (expr.data.takeWhile (fun c => c != ' '))
  else ""

mutual
/-- The metadata installation of `_handleFor` (dom.js 415-422): the
generated clone and each of its descendant elements receive a fresh
`IQ_SYM` map holding only the local context binding `variable ↦ item`
(in particular without an inputs set). -/
def setLocalDeep (varName : String) (item : JSValue) : DomNode → DomNode
  | .elem t attrs _ cs =>
    .elem t attrs (some { inputs := none, localCxt := [(varName, item)] })
      (setLocalDeepList varName item cs)
  | n => n
def setLocalDeepList (varName : String) (item : JSValue) :
    List DomNode → List DomNode
  | [] => []
  | c :: cs => setLocalDeep varName item c :: setLocalDeepList varName item cs
end

/-- The directive-processing state of one element while the snapshot of
its directive keys is folded over: still attached, detached and replaced
by the `iq.if` placeholder comment, or replaced by the clones a `for`
directive generated (after which its attributes and children have been
cleared, dom.js 440-443).  Each state carries the current `IQ_SYM`
metadata of the original node, which input directives keep updating even
on a detached node. -/
inductive DirState where
  | alive (meta : Option NodeMeta)
  | replacedByIf (meta : Option NodeMeta)
  | replacedByFor (meta : Option NodeMeta) (clones : List DomNode)

/-- The input branch of `_prepareDirectives` (dom.js 480-504): creates
the `IQ_SYM` map with an inputs set when the node has none, then
`vnode[IQ_SYM].get(IQ_SYM_INPUTS).add(directive)` — which throws a
`TypeError` when the map exists without an inputs set (the shape
`_handleFor` installs on generated clones).  The evaluated input value
is assigned to an element JS property outside the tree model. -/
def addInputKey (m : Option NodeMeta) (d : String) : Except String (Option NodeMeta) :=
  match m with
  | none => .ok (some { inputs := some [d], localCxt := [] })
  | some md =>
    match md.inputs with
    | none => .error "TypeError: cannot read add of undefined"
    | some keys =>
      .ok (some { md with inputs := some (if keys.contains d then keys else keys ++ [d]) })

mutual
/-- One step of `_evaluateTemplate` (dom.js 563-585) on a single node:
a text node has its content run through `_saferEvalTemplate`; a comment
is untouched; an element runs `_prepareDirectives` over the snapshot of
its directive keys, then `_prepareEvents` (listener registration, no
effect on the produced tree), then attribute interpolation, then the
walk of its children.  The node may evaluate to several nodes (a `for`
expansion) or to a placeholder comment (a falsy `if`); an uncaught
JavaScript exception is an `Except.error`. -/
def evalNode (E : Evaluator) : Nat → Context → DomNode → Except String (List DomNode)
  | 0, _, _ => .error "out of fuel"
  | _ + 1, ctx, .text s => .ok [.text (saferEvalTemplateS E s ctx)]
  | _ + 1, _, .comment s => .ok [.comment s]
  | fuel + 1, ctx, .elem t attrs m cs =>
    evalDirectives E fuel ctx t attrs cs (directiveKeys attrs) (.alive m)

/-- The `forEach` of `_prepareDirectives` (dom.js 474-517) over the
directive-key snapshot, followed (once the keys are exhausted) by the
rest of `_evaluateTemplate` for this element: event preparation,
attribute interpolation and the child walk.  A node detached by a falsy
`if` is still walked (its children can raise errors) but only the
placeholder comment reaches the tree; after a `for` replacement the
original is empty and the clones are the result.  Directives reached
after the node was detached act on a null parent or an emptied dataset
and throw, as in the source. -/
def evalDirectives (E : Evaluator) : Nat → Context → String →
    List (String × String) → List DomNode → List String → DirState →
    Except String (List DomNode)
  | 0, _, _, _, _, _, _ => .error "out of fuel"
  | fuel + 1, ctx, t, attrs, cs, [], st =>
    match st with
    | .alive m =>
      let attrs2 := attrs.map (fun a =>
        if nameHasIqDot a.fst then a else (a.fst, saferEvalTemplateS E a.snd ctx))
      match evalList E fuel ctx cs with
      | .error e => .error e
      | .ok cs2 => .ok [.elem t attrs2 m cs2]
    | .replacedByIf _ =>
      match evalList E fuel ctx cs with
      | .error e => .error e
      | .ok _ => .ok [.comment "iq.if removed node"]
    | .replacedByFor _ clones => .ok clones
  | fuel + 1, ctx, t, attrs, cs, key :: keys, st =>
    if key == "for" then
      match st with
      | .alive m =>
        match datasetGet attrs "for" with
        | none => .error "TypeError: expression is undefined"
        | some expr =>
          match E.forE expr ctx with
          | none => .error "TypeError: vnodes is undefined"
          | some items =>
            match evalForLoop E fuel ctx t (removeAttr attrs "data-iq.for")
                (forVariable expr) cs items with
            | .error e => .error e
            | .ok clones => evalDirectives E fuel ctx t attrs cs keys (.replacedByFor m clones)
      | .replacedByIf _ => .error "TypeError: parentNode is null"
      | .replacedByFor _ _ => .error "TypeError: expression is undefined"
    else if key == "if" then
      match st with
      | .alive m =>
        let showV :=
          match datasetGet attrs "if" with
          | some e => saferEvalReturnV E e ctx
          | none => .vUndefined
        if showV.truthy then
          evalDirectives E fuel ctx t attrs cs keys (.alive m)
        else
          evalDirectives E fuel ctx t attrs cs keys (.replacedByIf m)
      | .replacedByIf m =>
        let showV :=
          match datasetGet attrs "if" with
          | some e => saferEvalReturnV E e ctx
          | none => .vUndefined
        if showV.truthy then
          evalDirectives E fuel ctx t attrs cs keys (.replacedByIf m)
        else
          .error "TypeError: parentNode is null"
      | .replacedByFor _ _ => .error "TypeError: parentNode is null"
    else
      match st with
      | .alive m =>
        match addInputKey m key with
        | .error e => .error e
        | .ok m2 => evalDirectives E fuel ctx t attrs cs keys (.alive m2)
      | .replacedByIf m =>
        match addInputKey m key with
        | .error e => .error e
        | .ok m2 => evalDirectives E fuel ctx t attrs cs keys (.replacedByIf m2)
      | .replacedByFor m clones =>
        match addInputKey m key with
        | .error e => .error e
        | .ok m2 => evalDirectives E fuel ctx t attrs cs keys (.replacedByFor m2 clones)

/-- The `vnodes.forEach` loop of `_handleFor` (dom.js 408-437): for each
yielded item, in order, a clone of the directive-bearing node is built
from its markup with the `data-iq.for` attribute removed (dom.js 425)
and fresh local metadata installed on it and its descendant elements;
the context is temporarily extended with the loop variable, the clone is
evaluated recursively, and the first element child of the scratch
container (`n.children[0]`) is appended to the output fragment.  The
double interpolation of the clone markup inside the generated loop
program is subsumed by the recursive evaluation; the temporary
`delete context[variable]` between items is modelled by extending a
fresh copy of the context per item (the source would destroy a
controller property that collides with the loop variable). -/
def evalForLoop (E : Evaluator) : Nat → Context → String →
    List (String × String) → String → List DomNode → List JSValue →
    Except String (List DomNode)
  | 0, _, _, _, _, _, _ => .error "out of fuel"
  | _ + 1, _, _, _, _, _, [] => .ok []
  | fuel + 1, ctx, t, attrs2, varName, cs, item :: rest =>
    let clone : DomNode :=
      .elem t attrs2 (some { inputs := none, localCxt := [(varName, item)] })
        (setLocalDeepList varName item cs)
    match evalNode E fuel (ctxSet ctx varName item) clone with
    | .error e => .error e
    | .ok outs =>
      match outs.find? (fun n => nodeTypeOf n == 1) with
      | none => .error "TypeError: cannot append undefined"
      | some generated =>
        match evalForLoop E fuel ctx t attrs2 varName cs rest with
        | .error e => .error e
        | .ok more => .ok (generated :: more)

/-- The iterative walk of `_evaluateTemplate` over a list of sibling
nodes: each node is evaluated in place; an exception thrown while
processing one node propagates and aborts the walk, so the following
siblings are not processed. -/
def evalList (E : Evaluator) : Nat → Context → List DomNode → Except String (List DomNode)
  | 0, _, _ => .error "out of fuel"
  | _ + 1, _, [] => .ok []
  | fuel + 1, ctx, n :: ns =>
    match evalNode E fuel ctx n with
    | .error e => .error e
    | .ok outs =>
      match evalList E fuel ctx ns with
      | .error e => .error e
      | .ok more => .ok (outs ++ more)
end

/-- The local-context binding of a node for a given name, read from its
`IQ_SYM` metadata (as `_callIqEvent` would). -/
def localLookup (n : DomNode) (k : String) : Option JSValue :=
  match metaOf n with
  | some md => ctxGet md.localCxt k
  | none => none

/-- An evaluator oracle whose every evaluation throws. -/
def failingEvaluator : Evaluator :=
  { retE := fun _ _ => none, tplE := fun _ _ => none, forE := fun _ _ => none }

/-- An evaluator oracle for concrete runs: expressions evaluate to
`false`, template strings evaluate to themselves, and `for` expressions
yield the items 3, 1, 2 in that order. -/
def demoEvaluator : Evaluator :=
  { retE := fun _ _ => some (.vBool false)
    tplE := fun tpl _ => some tpl
    forE := fun _ _ => some [.vNum 3, .vNum 1, .vNum 2] }

/-! ### Helper lemmas about context objects -/

theorem ctxSet_of_not_mem {c : Context} {k : String} (v : JSValue)
    (h : k ∉ ctxKeys c) : ctxSet c k v = c ++ [(k, v)] := by
  induction c with
  | nil => rfl
  | cons kv rest ih =>
    simp only [ctxKeys, List.map_cons, List.mem_cons, not_or] at h
    have hk : ¬((kv.fst == k) = true) := by
      simp only [beq_iff_eq]
      exact fun e => h.1 e.symm
    simp only [ctxSet, if_neg hk, List.cons_append]
    rw [ih h.2]

theorem ctxDelete_of_not_mem {c : Context} {k : String}
    (h : k ∉ ctxKeys c) : ctxDelete c k = c := by
  induction c with
  | nil => rfl
  | cons kv rest ih =>
    simp only [ctxKeys, List.map_cons, List.mem_cons, not_or] at h
    have hk : ¬((kv.fst == k) = true) := by
      simp only [beq_iff_eq]
      exact fun e => h.1 e.symm
    simp only [ctxDelete, if_neg hk]
    rw [ih h.2]

theorem ctxDelete_ctxSet_cancel {c : Context} {k : String} (v : JSValue)
    (h : k ∉ ctxKeys c) : ctxDelete (ctxSet c k v) k = c := by
  induction c with
  | nil => simp [ctxSet, ctxDelete]
  | cons kv rest ih =>
    simp only [ctxKeys, List.map_cons, List.mem_cons, not_or] at h
    have hk : ¬((kv.fst == k) = true) := by
      simp only [beq_iff_eq]
      exact fun e => h.1 e.symm
    simp only [ctxSet, if_neg hk, ctxDelete]
    rw [ih h.2]

theorem ctxKeys_ctxSet_mem {c : Context} {k a : String} {v : JSValue}
    (h : a ∈ ctxKeys (ctxSet c k v)) : a ∈ ctxKeys c ∨ a = k := by
  induction c with
  | nil =>
    simp only [ctxSet, ctxKeys, List.map_cons, List.map_nil, List.mem_singleton] at h
    exact Or.inr h
  | cons kv rest ih =>
    by_cases hk : (kv.fst == k) = true
    · simp only [ctxSet, if_pos hk, ctxKeys, List.map_cons, List.mem_cons] at h
      rcases h with h | h
      · exact Or.inr h
      · exact Or.inl (List.mem_cons_of_mem _ h)
    · simp only [ctxSet, if_neg hk, ctxKeys, List.map_cons, List.mem_cons] at h
      rcases h with h | h
      · exact Or.inl (by simp [ctxKeys, h])
      · rcases ih h with h2 | h2
        · exact Or.inl (List.mem_cons_of_mem _ h2)
        · exact Or.inr h2

theorem ctxDelete_comm (c : Context) {a b : String} (h : a ≠ b) :
    ctxDelete (ctxDelete c a) b = ctxDelete (ctxDelete c b) a := by
  induction c with
  | nil => rfl
  | cons kv rest ih =>
    by_cases ha : (kv.fst == a) = true
    · have hb : ¬((kv.fst == b) = true) := by
        rw [beq_iff_eq] at ha ⊢
        exact fun e => h (ha.symm.trans e)
      simp only [ctxDelete, if_pos ha, if_neg hb, if_pos ha]
    · by_cases hb : (kv.fst == b) = true
      · simp only [ctxDelete, if_neg ha, if_pos hb, if_neg ha]
      · simp only [ctxDelete, if_neg ha, if_neg hb, ih]

theorem ctxDelete_foldl_comm (l : List (String × JSValue)) (c : Context)
    {k : String} (hk : k ∉ l.map Prod.fst) :
    l.foldl (fun a kv => ctxDelete a kv.fst) (ctxDelete c k) =
      ctxDelete (l.foldl (fun a kv => ctxDelete a kv.fst) c) k := by
  induction l generalizing c with
  | nil => rfl
  | cons kv rest ih =>
    simp only [List.map_cons, List.mem_cons, not_or] at hk
    simp only [List.foldl_cons]
    rw [ctxDelete_comm c hk.1]
    exact ih (ctxDelete c kv.fst) hk.2

theorem ctxGet_eq_none_of_not_mem {c : Context} {k : String}
    (h : k ∉ ctxKeys c) : ctxGet c k = none := by
  induction c with
  | nil => rfl
  | cons kv rest ih =>
    simp only [ctxKeys, List.map_cons, List.mem_cons, not_or] at h
    have hk : ¬((kv.fst == k) = true) := by
      simp only [beq_iff_eq]
      exact fun e => h.1 e.symm
    simp only [ctxGet, if_neg hk]
    exact ih h.2

theorem ctxGet_ctxSet_self (c : Context) (k : String) (v : JSValue) :
    ctxGet (ctxSet c k v) k = some v := by
  induction c with
  | nil => simp [ctxSet, ctxGet]
  | cons kv rest ih =>
    by_cases hk : (kv.fst == k) = true
    · have heq : kv.fst = k := by rwa [beq_iff_eq] at hk
      simp [ctxSet, heq, ctxGet]
    · simp only [ctxSet, if_neg hk, ctxGet, ih]

theorem ctxGet_ctxDelete_self {c : Context} {k : String}
    (h : (ctxKeys c).Nodup) : ctxGet (ctxDelete c k) k = none := by
  induction c with
  | nil => rfl
  | cons kv rest ih =>
    simp only [ctxKeys, List.map_cons, List.nodup_cons] at h
    by_cases hk : (kv.fst == k) = true
    · simp only [ctxDelete, if_pos hk]
      apply ctxGet_eq_none_of_not_mem
      rw [beq_iff_eq] at hk
      rw [← hk]
      exact h.1
    · simp only [ctxDelete, if_neg hk, ctxGet, if_neg hk]
      exact ih h.2

/-! ### Claims about the observer (C3, C10) -/

/-- C3: for every intercepted property, assigning a value identical to
the current shadow value performs no action (zero `onChange` calls,
shadow store unchanged, no throw), and assigning a different value
updates the shadow value and then invokes the `onChange` callback
exactly once (the call is a direct synchronous invocation in the
setter). -/
theorem observe_set_change_detection (old value : JSValue) :
    (value = old →
      observeSet old value = { shadow := old, actionCalls := 0, threw := false }) ∧
    (value ≠ old →
      (observeSet old value).shadow = value ∧ (observeSet old value).actionCalls = 1) := by
  refine ⟨fun h => ?_, fun h => ?_⟩
  · simp [observeSet, h]
  · simp [observeSet, h]

/-- Witness for `observe_set_change_detection` at concrete inputs. -/
theorem observe_set_change_detection_witness :
    observeSet (JSValue.vNum 0) (JSValue.vNum 0) =
      { shadow := JSValue.vNum 0, actionCalls := 0, threw := false } ∧
    ((observeSet (JSValue.vNum 0) (JSValue.vNum 1)).shadow = JSValue.vNum 1 ∧
      (observeSet (JSValue.vNum 0) (JSValue.vNum 1)).actionCalls = 1) :=
  ⟨(observe_set_change_detection (JSValue.vNum 0) (JSValue.vNum 0)).1 rfl,
   (observe_set_change_detection (JSValue.vNum 0) (JSValue.vNum 1)).2 (by decide)⟩

/-- C10: assigning `null` or `undefined` as a new (different) value does
not complete normally: the shadow value is updated and the callback
fires once, but the setter then throws a `TypeError`, because after the
callback it unconditionally calls `_patchObjectMutators(value, action)`
(dom.js 329), whose first statement dereferences `value.constructor`;
the `!= null` guard of the initial observation path (dom.js 335) is
absent on the write path. -/
theorem observe_set_nullish_write_throws (old value : JSValue)
    (hne : value ≠ old) (hnull : value.isNullish = true) :
    observeSet old value = { shadow := value, actionCalls := 1, threw := true } := by
  simp [observeSet, hne, patchObjectMutatorsThrows, hnull]

/-- Witness for `observe_set_nullish_write_throws` at a concrete input. -/
theorem observe_set_nullish_write_throws_witness :
    (JSValue.vNull ≠ JSValue.vNum 0 ∧ JSValue.isNullish JSValue.vNull = true) ∧
    observeSet (JSValue.vNum 0) JSValue.vNull =
      { shadow := JSValue.vNull, actionCalls := 1, threw := true } :=
  ⟨⟨by decide, by decide⟩,
   observe_set_nullish_write_throws (JSValue.vNum 0) JSValue.vNull (by decide) (by decide)⟩

/-! ### Claims about the global state accessor (C6) -/

/-- C6 counterexample: the `APP_STATE` object defines only `update`,
`delete` and `get`; the claimed `create` and `all` operations do not
exist on it. -/
theorem app_state_missing_methods_counterexample :
    ¬("create" ∈ appStateMethodNames) ∧ ¬("all" ∈ appStateMethodNames) := by
  decide

/-- C6 (amended): the injected global application state accessor
provides exactly `update(key, value)`, `delete(key)` and `get(key)`
(there is no `create` and no `all`); the two write operations store the
change and then trigger a full-document reload cycle, in that order,
while `get` returns the stored value and triggers nothing. -/
theorem app_state_accessor_contract (st : Context) (k : String) (v : JSValue)
    (h : (ctxKeys st).Nodup) :
    appStateMethodNames = ["update", "delete", "get"] ∧
    ctxGet (appStateUpdate st k v).storage k = some v ∧
    (appStateUpdate st k v).effects = [AppEffect.storageWrite, AppEffect.fullReload] ∧
    ctxGet (appStateDelete st k).storage k = none ∧
    (appStateDelete st k).effects = [AppEffect.storageWrite, AppEffect.fullReload] ∧
    (appStateGet st k).ret = ctxGet st k ∧
    (appStateGet st k).storage = st ∧
    (appStateGet st k).effects = [] :=
  ⟨rfl, ctxGet_ctxSet_self st k v, rfl, ctxGet_ctxDelete_self h, rfl, rfl, rfl, rfl⟩

/-- Witness for `app_state_accessor_contract` at concrete inputs. -/
theorem app_state_accessor_contract_witness :
    appStateMethodNames = ["update", "delete", "get"] ∧
    ctxGet (appStateUpdate [("count", JSValue.vNum 1)] "count" (JSValue.vNum 2)).storage
      "count" = some (JSValue.vNum 2) ∧
    (appStateUpdate [("count", JSValue.vNum 1)] "count" (JSValue.vNum 2)).effects =
      [AppEffect.storageWrite, AppEffect.fullReload] ∧
    ctxGet (appStateDelete [("count", JSValue.vNum 1)] "count").storage "count" = none ∧
    (appStateDelete [("count", JSValue.vNum 1)] "count").effects =
      [AppEffect.storageWrite, AppEffect.fullReload] ∧
    (appStateGet [("count", JSValue.vNum 1)] "count").ret =
      ctxGet [("count", JSValue.vNum 1)] "count" ∧
    (appStateGet [("count", JSValue.vNum 1)] "count").storage =
      [("count", JSValue.vNum 1)] ∧
    (appStateGet [("count", JSValue.vNum 1)] "count").effects = [] :=
  app_state_accessor_contract [("count", JSValue.vNum 1)] "count" (JSValue.vNum 2)
    (by decide)

/-! ### Claims about `Load` and instantiation failures (C1) -/

/-- C1 counterexample: in a `Load` pass over two component elements
where the first instantiation throws, the failing element is skipped,
but its sibling — whose own instantiation would have succeeded — is
left unrendered as well, and the exception escapes `Load`. -/
theorem load_failure_counterexample :
    (loadRun [{ className := "Bad", ctor := CtorOutcome.throws, cached := false },
              { className := "GoodWidget", ctor := CtorOutcome.returns true,
                cached := false }]).fst = [] ∧
    (loadRun [{ className := "Bad", ctor := CtorOutcome.throws, cached := false },
              { className := "GoodWidget", ctor := CtorOutcome.returns true,
                cached := false }]).snd = some "constructor failed: Bad" ∧
    instOk { className := "GoodWidget", ctor := CtorOutcome.returns true,
             cached := false } = true := by
  decide

/-- C1 (amended): an instantiation failure is reported and rethrown;
`Load` does not catch it, so the exception aborts the per-element
`forEach`: exactly the elements before the first failing one complete
their rendering, every element from the failing one on is left
unrendered, and the first failure propagates out of `Load`. -/
theorem load_failure_aborts_rest (comps : List CompElem) :
    (loadRun comps).fst = (comps.takeWhile instOk).map CompElem.className ∧
    (loadRun comps).snd = ((comps.dropWhile instOk).head?).bind instErr := by
  induction comps with
  | nil => simp [loadRun]
  | cons c cs ih =>
    cases hstep : instantiateStep c with
    | error e =>
      have hok : instOk c = false := by simp [instOk, hstep]
      simp [loadRun, hstep, List.takeWhile_cons, List.dropWhile_cons, hok, instErr]
    | ok u =>
      have hok : instOk c = true := by simp [instOk, hstep]
      simp [loadRun, hstep, List.takeWhile_cons, List.dropWhile_cons, hok, ih]

/-! ### Claims about the event-handler context (C9) -/

/-- C9 counterexample: when a local iteration binding collides with a
pre-existing controller property, the cleanup `delete` of
`_callIqEvent` destroys the controller property instead of restoring
its prior value: here the controller property `item` (prior value `0`)
is gone after the event fires. -/
theorem event_context_collision_counterexample :
    callIqEvent [("item", JSValue.vNum 5)] (JSValue.vObj 0 "Event")
      [("item", JSValue.vNum 0)] = [] ∧
    ctxGet (callIqEvent [("item", JSValue.vNum 5)] (JSValue.vObj 0 "Event")
      [("item", JSValue.vNum 0)]) "item" = none := by
  decide

/-- C9 (amended): when the local binding names and the special event
variable are fresh (no collision with an existing controller property),
`_callIqEvent` restores the context exactly: the temporary keys are
removed — `_saferEval` catches every exception, so this happens
regardless of the evaluation outcome — and the context is unchanged.
A colliding pre-existing property would instead be overwritten and then
deleted. -/
theorem event_context_restored_when_fresh
    (localCxt : List (String × JSValue)) (event : JSValue) (ctx : Context)
    (hfresh : ∀ kv ∈ localCxt, kv.fst ∉ ctxKeys ctx)
    (hnodup : (localCxt.map Prod.fst).Nodup)
    (hev1 : "$iqEvent" ∉ ctxKeys ctx)
    (hev2 : "$iqEvent" ∉ localCxt.map Prod.fst) :
    callIqEvent localCxt event ctx = ctx := by
  induction localCxt generalizing ctx with
  | nil =>
    simp only [callIqEvent, List.foldl_nil]
    exact ctxDelete_ctxSet_cancel event hev1
  | cons kv rest ih =>
    simp only [callIqEvent, List.foldl_cons] at ih ⊢
    simp only [List.map_cons, List.mem_cons, not_or] at hev2
    simp only [List.map_cons, List.nodup_cons] at hnodup
    have hkctx : kv.fst ∉ ctxKeys ctx := hfresh kv (List.mem_cons_self kv rest)
    rw [ctxDelete_foldl_comm rest _ hnodup.1]
    rw [ctxDelete_comm _ (Ne.symm hev2.1)]
    have hfresh2 : ∀ kv2 ∈ rest, kv2.fst ∉ ctxKeys (ctxSet ctx kv.fst kv.snd) := by
      intro kv2 h2 hmem
      rcases ctxKeys_ctxSet_mem hmem with hin | heq
      · exact hfresh kv2 (List.mem_cons_of_mem kv h2) hin
      · exact hnodup.1 (heq ▸ List.mem_map_of_mem Prod.fst h2)
    have hev1b : "$iqEvent" ∉ ctxKeys (ctxSet ctx kv.fst kv.snd) := by
      intro hmem
      rcases ctxKeys_ctxSet_mem hmem with hin | heq
      · exact hev1 hin
      · exact hev2.1 heq
    rw [ih (ctxSet ctx kv.fst kv.snd) hfresh2 hnodup.2 hev1b hev2.2]
    exact ctxDelete_ctxSet_cancel kv.snd hkctx

/-- Witness for `event_context_restored_when_fresh` at concrete inputs. -/
theorem event_context_restored_when_fresh_witness :
    callIqEvent [("x", JSValue.vNum 5)] (JSValue.vObj 0 "Event")
      [("count", JSValue.vNum 0)] = [("count", JSValue.vNum 0)] :=
  event_context_restored_when_fresh [("x", JSValue.vNum 5)] (JSValue.vObj 0 "Event")
    [("count", JSValue.vNum 0)] (by decide) (by decide) (by decide) (by decide)

/-! ### Helper lemmas about the patcher -/

theorem nodeChanged_self (n : DomNode) : nodeChanged n n = false := by
  simp [nodeChanged]

theorem getAttr_self_of_nodup :
    ∀ l : List (String × String), nodupKeysB (attrNames l) = true →
      ∀ a ∈ l, getAttr l a.fst = some a.snd
  | [], _, a, ha => by simp at ha
  | kv :: rest, h, a, ha => by
    simp only [nodupKeysB, attrNames, List.map_cons, Bool.and_eq_true,
      Bool.not_eq_true'] at h
    have hnotmem : kv.fst ∉ List.map Prod.fst rest := by simpa using h.1
    rcases List.mem_cons.mp ha with rfl | ha2
    · simp [getAttr]
    · have hne : ¬((kv.fst == a.fst) = true) := by
        intro he
        rw [beq_iff_eq] at he
        exact hnotmem (he ▸ List.mem_map_of_mem Prod.fst ha2)
      simp only [getAttr, if_neg hne]
      exact getAttr_self_of_nodup rest h.2 a ha2

theorem patchAttrFold_self :
    ∀ (l : List (String × String)) (start : List (String × String) × List PatchOp),
      (∀ a ∈ l, getAttr start.fst a.fst = some a.snd) →
      l.foldl patchAttrStep start = start
  | [], _, _ => rfl
  | a :: rest, start, h => by
    have hstep : patchAttrStep start a = start := by
      unfold patchAttrStep
      by_cases hiq : nameHasIqDot a.fst = true
      · rw [if_pos hiq]
      · rw [if_neg hiq, if_pos]
        rw [h a (List.mem_cons_self a rest)]
        simp
    simp only [List.foldl_cons, hstep]
    exact patchAttrFold_self rest start (fun b hb => h b (List.mem_cons_of_mem a hb))

theorem patchFinal_self (t : String) (attrs : List (String × String))
    (m m2 : Option NodeMeta) (cs cs2 : List DomNode)
    (h : nodupKeysB (attrNames attrs) = true) :
    (patchFinalNodeWithData (.elem t attrs m cs) (.elem t attrs m2 cs2)).fst =
      .elem t attrs m2 cs ∧
    (patchFinalNodeWithData (.elem t attrs m cs) (.elem t attrs m2 cs2)).snd.all
      PatchOp.isMetaOrInput = true := by
  have hfold : attrs.foldl patchAttrStep (attrs, ([] : List PatchOp)) = (attrs, []) :=
    patchAttrFold_self attrs (attrs, []) (fun a ha => getAttr_self_of_nodup attrs h a ha)
  constructor
  · simp only [patchFinalNodeWithData, hfold]
  · simp only [patchFinalNodeWithData, hfold, List.nil_append, List.all_eq_true]
    intro op hop
    simp only [List.mem_append] at hop
    rcases hop with hop | hop
    · rcases m2 with _ | ⟨mi, lc⟩
      · simp at hop
      · rcases mi with _ | keys
        · simp at hop
        · simp only at hop
          rcases List.mem_map.mp hop with ⟨k2, _, rfl⟩
          rfl
    · simp only [List.mem_singleton] at hop
      subst hop
      rfl

mutual
theorem patchNode_self : ∀ n : DomNode, wfNode n = true →
    (patchNode n n).fst = n ∧ (patchNode n n).snd.all PatchOp.isMetaOrInput = true
  | .text s, _ => by simp [patchNode]
  | .comment s, _ => by simp [patchNode]
  | .elem t attrs m cs, h => by
    simp only [wfNode, Bool.and_eq_true] at h
    have hcs := patchChildren_self cs h.2
    have hfin := patchFinal_self t attrs m m cs cs h.1
    simp only [patchNode, hcs.1]
    refine ⟨hfin.1, ?_⟩
    rw [List.all_append]
    exact Bool.and_eq_true _ _ |>.mpr ⟨hcs.2, hfin.2⟩
theorem patchChildren_self : ∀ l : List DomNode, wfList l = true →
    (patchChildren l l).fst = l ∧ (patchChildren l l).snd.all PatchOp.isMetaOrInput = true
  | [], _ => by simp [patchChildren]
  | x :: xs, h => by
    simp only [wfList, Bool.and_eq_true] at h
    have hxs := patchChildren_self xs h.2
    by_cases hel : (nodeTypeOf x == 1) = true
    · have hx := patchNode_self x h.1
      simp only [patchChildren, nodeChanged_self x, Bool.false_eq_true, if_false,
        hel, if_true, hx.1, hxs.1, List.all_append, hx.2, hxs.2, Bool.and_self,
        and_self]
    · simp only [patchChildren, nodeChanged_self x, Bool.false_eq_true, if_false,
        if_neg hel, hxs.1, hxs.2, and_self]
end

/-! ### Claims about the patcher (C4, C5) -/

/-- C4: patching a committed tree against an identical incoming
fragment is a no-op on attributes and text: the committed children are
returned unchanged (in particular no text content changes and no
structural replacement happens), and every operation the patch performs
is a metadata overwrite or an input property copy — there is no
attribute write (and `_patch` contains no text-content assignment at
all). -/
theorem patch_identical_is_noop (cs : List DomNode) (h : wfList cs = true) :
    (patchChildren cs cs).fst = cs ∧
    (patchChildren cs cs).snd.all PatchOp.isMetaOrInput = true :=
  patchChildren_self cs h

/-- Witness for `patch_identical_is_noop` on a concrete committed tree. -/
theorem patch_identical_is_noop_witness :
    wfList [DomNode.elem "DIV" [("class", "box")] none
      [DomNode.text "hi", DomNode.comment "c"]] = true ∧
    ((patchChildren [DomNode.elem "DIV" [("class", "box")] none
        [DomNode.text "hi", DomNode.comment "c"]]
      [DomNode.elem "DIV" [("class", "box")] none
        [DomNode.text "hi", DomNode.comment "c"]]).fst =
      [DomNode.elem "DIV" [("class", "box")] none
        [DomNode.text "hi", DomNode.comment "c"]] ∧
    (patchChildren [DomNode.elem "DIV" [("class", "box")] none
        [DomNode.text "hi", DomNode.comment "c"]]
      [DomNode.elem "DIV" [("class", "box")] none
        [DomNode.text "hi", DomNode.comment "c"]]).snd.all
      PatchOp.isMetaOrInput = true) :=
  ⟨by simp [wfList, wfNode, nodupKeysB, attrNames],
   patch_identical_is_noop _ (by simp [wfList, wfNode, nodupKeysB, attrNames])⟩

/-- C5 counterexample: two comment nodes with differing content are not
considered changed by `_nodeChanged` — the text-content check applies
only to text nodes and comments have no tag name — so the patcher keeps
the committed comment and performs no operation, contradicting the
claim that such a pair counts as changed. -/
theorem comment_content_ignored_counterexample :
    nodeChanged (DomNode.comment "a") (DomNode.comment "b") = false ∧
    (patchChildren [DomNode.comment "a"] [DomNode.comment "b"]).fst =
      [DomNode.comment "a"] ∧
    (patchChildren [DomNode.comment "a"] [DomNode.comment "b"]).snd = [] := by
  refine ⟨rfl, ?_, ?_⟩
  · simp [patchChildren, nodeChanged, nodeTypeOf, tagNameOf, textContentOf]
  · simp [patchChildren, nodeChanged, nodeTypeOf, tagNameOf, textContentOf]

/-- C5 (amended): an aligned committed node is replaced wholesale by
the incoming node exactly when their node categories differ, or both
are text nodes with differing text content, or both are element nodes
with differing tag names; comment content is ignored (two comments with
differing content do not count as changed).  `_nodeChanged` equals this
condition, and when it holds the patcher replaces the committed node by
the incoming one at the same child position. -/
theorem node_replacement_condition (prev cur : DomNode) :
    nodeChanged prev cur = changedSpec prev cur ∧
    (changedSpec prev cur = true → ∀ xs ys : List DomNode,
      (patchChildren (prev :: xs) (cur :: ys)).fst =
        cur :: (patchChildren xs ys).fst ∧
      (patchChildren (prev :: xs) (cur :: ys)).snd =
        PatchOp.replaceNode :: (patchChildren xs ys).snd) := by
  have heq : nodeChanged prev cur = changedSpec prev cur := by
    cases prev <;> cases cur <;>
      simp [nodeChanged, changedSpec, nodeTypeOf, tagNameOf, textContentOf, bne]
  refine ⟨heq, fun hch xs ys => ?_⟩
  rw [← heq] at hch
  refine ⟨?_, ?_⟩
  · simp [patchChildren, hch]
  · simp [patchChildren, hch]

/-- Witness for `node_replacement_condition` at concrete inputs. -/
theorem node_replacement_condition_witness :
    nodeChanged (DomNode.text "a") (DomNode.text "b") =
      changedSpec (DomNode.text "a") (DomNode.text "b") ∧
    (patchChildren [DomNode.text "a"] [DomNode.text "b"]).fst = [DomNode.text "b"] ∧
    (patchChildren [DomNode.text "a"] [DomNode.text "b"]).snd = [PatchOp.replaceNode] := by
  have h2 := (node_replacement_condition (DomNode.text "a") (DomNode.text "b")).2
    (by simp [changedSpec]) [] []
  refine ⟨(node_replacement_condition (DomNode.text "a") (DomNode.text "b")).1, ?_, ?_⟩
  · rw [h2.1]
    simp [patchChildren]
  · rw [h2.2]
    simp [patchChildren]

/-! ### Helper lemmas about directives and the template walker -/

theorem stripPre_eq :
    ∀ (p s suffix : List Char), stripPre p s = some suffix → s = p ++ suffix
  | [], s, suffix, h => by
    simp only [stripPre, Option.some.injEq] at h
    simp [h]
  | _ :: _, [], suffix, h => by simp [stripPre] at h
  | p :: ps, c :: cs, suffix, h => by
    simp only [stripPre] at h
    by_cases hpc : p = c
    · rw [if_pos hpc] at h
      have := stripPre_eq ps cs suffix h
      simp [hpc, this]
    · rw [if_neg hpc] at h
      simp at h

theorem directiveKey_for_name {name : String}
    (h : directiveKey name = some "for") : name = "data-iq.for" := by
  unfold directiveKey at h
  cases hs : stripPre "data-iq.".toList name.toList with
  | none => rw [hs] at h; simp at h
  | some suffix =>
    rw [hs] at h
    simp only [Option.some.injEq] at h
    have hdata : suffix = "for".data := by
      have := congrArg String.data h
      simpa using this
    have := stripPre_eq "data-iq.".toList name.toList suffix hs
    apply String.ext
    rw [show name.toList = name.data from rfl] at this
    rw [this, hdata]
    rfl

theorem attrNames_map_interp (E : Evaluator) (ctx : Context)
    (l : List (String × String)) :
    attrNames (l.map (fun a =>
      if nameHasIqDot a.fst then a else (a.fst, saferEvalTemplateS E a.snd ctx))) =
      attrNames l := by
  induction l with
  | nil => rfl
  | cons a rest ih =>
    simp only [List.map_cons, attrNames] at ih ⊢
    by_cases hiq : nameHasIqDot a.fst = true
    · rw [if_pos hiq]
      simp [ih]
    · rw [if_neg hiq]
      simp [ih]

theorem directiveKeys_map_interp (E : Evaluator) (ctx : Context)
    (l : List (String × String)) :
    directiveKeys (l.map (fun a =>
      if nameHasIqDot a.fst then a else (a.fst, saferEvalTemplateS E a.snd ctx))) =
      directiveKeys l := by
  induction l with
  | nil => rfl
  | cons a rest ih =>
    simp only [List.map_cons, directiveKeys, List.filterMap_cons] at ih ⊢
    by_cases hiq : nameHasIqDot a.fst = true
    · rw [if_pos hiq]
      cases directiveKey a.fst with
      | none => exact ih
      | some k => exact congrArg (k :: ·) ih
    · rw [if_neg hiq]
      cases directiveKey a.fst with
      | none => exact ih
      | some k => exact congrArg (k :: ·) ih

theorem directiveKeys_nil_no_for {l : List (String × String)}
    (h : directiveKeys l = []) :
    (attrNames l).contains "data-iq.for" = false := by
  by_contra hc
  rw [Bool.not_eq_false] at hc
  have hm : "data-iq.for" ∈ attrNames l := by simpa using hc
  rcases List.mem_map.mp hm with ⟨a, ha, hfst⟩
  have hk : directiveKey a.fst = some "for" := by
    rw [hfst]
    rfl
  have : "for" ∈ directiveKeys l :=
    List.mem_filterMap.mpr ⟨a, ha, hk⟩
  rw [h] at this
  simp at this

theorem directiveKeys_removeAttr_for :
    ∀ l : List (String × String), directiveKeys l = ["for"] →
      directiveKeys (removeAttr l "data-iq.for") = []
  | [], h => by simp [directiveKeys] at h
  | a :: rest, h => by
    cases hk : directiveKey a.fst with
    | none =>
      have hne : ¬((a.fst == "data-iq.for") = true) := by
        intro he
        rw [beq_iff_eq] at he
        rw [he] at hk
        have : directiveKey "data-iq.for" = some "for" := rfl
        rw [this] at hk
        exact Option.noConfusion hk
      simp only [removeAttr, if_neg hne]
      simp only [directiveKeys, List.filterMap_cons, hk] at h ⊢
      exact directiveKeys_removeAttr_for rest h
    | some k =>
      simp only [directiveKeys, List.filterMap_cons, hk] at h
      have hkf : k = "for" := (List.cons_eq_cons.mp h).1
      have hrest : List.filterMap (fun a => directiveKey a.fst) rest = [] :=
        (List.cons_eq_cons.mp h).2
      have hname : a.fst = "data-iq.for" := directiveKey_for_name (hkf ▸ hk)
      have hpos : (a.fst == "data-iq.for") = true := by
        rw [beq_iff_eq]
        exact hname
      simp only [removeAttr, if_pos hpos]
      exact hrest

theorem evalNode_no_directives (E : Evaluator) (fuel : Nat) (ctx : Context)
    (t : String) (attrs2 : List (String × String)) (m : Option NodeMeta)
    (cs : List DomNode) (outs : List DomNode)
    (hkeys : directiveKeys attrs2 = [])
    (hrun : evalNode E (fuel + 1) ctx (.elem t attrs2 m cs) = .ok outs) :
    ∃ cs2, evalList E (fuel - 1) ctx cs = .ok cs2 ∧
      outs = [.elem t (attrs2.map (fun a =>
        if nameHasIqDot a.fst then a
        else (a.fst, saferEvalTemplateS E a.snd ctx))) m cs2] := by
  simp only [evalNode, hkeys] at hrun
  cases fuel with
  | zero => simp [evalDirectives] at hrun
  | succ g =>
    simp only [evalDirectives] at hrun
    cases hlist : evalList E g ctx cs with
    | error e => rw [hlist] at hrun; exact Except.noConfusion hrun
    | ok cs2 =>
      rw [hlist] at hrun
      refine ⟨cs2, ?_, ?_⟩
      · simpa using hlist
      · simp only [Except.ok.injEq] at hrun
        exact hrun.symm

theorem evalForLoop_spec (E : Evaluator) :
    ∀ (items : List JSValue) (fuel : Nat) (ctx : Context) (t : String)
      (attrs2 : List (String × String)) (varName : String) (cs : List DomNode)
      (clones : List DomNode),
      directiveKeys attrs2 = [] →
      evalForLoop E fuel ctx t attrs2 varName cs items = .ok clones →
      clones.map (fun n => localLookup n varName) = items.map some ∧
      ∀ n ∈ clones, (attrNames (attrsOf n)).contains "data-iq.for" = false
  | [], fuel, ctx, t, attrs2, varName, cs, clones, hkeys, hrun => by
    cases fuel with
    | zero => simp [evalForLoop] at hrun
    | succ g =>
      simp only [evalForLoop, Except.ok.injEq] at hrun
      subst hrun
      simp
  | item :: rest, fuel, ctx, t, attrs2, varName, cs, clones, hkeys, hrun => by
    cases fuel with
    | zero => simp [evalForLoop] at hrun
    | succ g =>
      simp only [evalForLoop] at hrun
      cases hev : evalNode E g (ctxSet ctx varName item)
          (.elem t attrs2 (some { inputs := none, localCxt := [(varName, item)] })
            (setLocalDeepList varName item cs)) with
      | error e =>
        rw [hev] at hrun
        exact Except.noConfusion hrun
      | ok outs0 =>
        rw [hev] at hrun
        cases g with
        | zero => simp [evalNode] at hev
        | succ g2 =>
          obtain ⟨cs2, _, houts⟩ :=
            evalNode_no_directives E g2 (ctxSet ctx varName item) t attrs2
              (some { inputs := none, localCxt := [(varName, item)] })
              (setLocalDeepList varName item cs) outs0 hkeys hev
          subst houts
          simp only [List.find?, nodeTypeOf, show (1 == 1) = true from rfl] at hrun
          cases hrest : evalForLoop E (g2 + 1) ctx t attrs2 varName cs rest with
          | error e =>
            rw [hrest] at hrun
            exact Except.noConfusion hrun
          | ok more =>
            rw [hrest] at hrun
            simp only [Except.ok.injEq] at hrun
            subst hrun
            have ih := evalForLoop_spec E rest (g2 + 1) ctx t attrs2 varName cs
              more hkeys hrest
            constructor
            · simp only [List.map_cons]
              rw [ih.1]
              simp [localLookup, metaOf, ctxGet]
            · intro n hn
              rcases List.mem_cons.mp hn with rfl | hn2
              · simp only [attrsOf]
                rw [attrNames_map_interp]
                exact directiveKeys_nil_no_for hkeys
              · exact ih.2 n hn2

/-! ### Claims about the template directives (C2, C7, C8) -/

/-- C7: for a node whose only directive is `for`, a successful
compilation emits one clone per item the iterable yielded, in the same
order (each clone's local binding for the loop variable is the
corresponding item, so the emitted order matches the yield order, not a
sorted order), and every emitted clone has the `data-iq.for` attribute
stripped, so recompiling a clone cannot re-enter the `for` expansion. -/
theorem for_directive_order_and_strip
    (E : Evaluator) (fuel : Nat) (ctx : Context) (t : String)
    (attrs : List (String × String)) (m : Option NodeMeta) (cs : List DomNode)
    (expr : String) (items : List JSValue) (outs : List DomNode)
    (hkeys : directiveKeys attrs = ["for"])
    (hexpr : datasetGet attrs "for" = some expr)
    (hitems : E.forE expr ctx = some items)
    (hrun : evalNode E fuel ctx (.elem t attrs m cs) = .ok outs) :
    outs.length = items.length ∧
    outs.map (fun n => localLookup n (forVariable expr)) = items.map some ∧
    ∀ n ∈ outs, (attrNames (attrsOf n)).contains "data-iq.for" = false := by
  cases fuel with
  | zero => simp [evalNode] at hrun
  | succ f =>
    simp only [evalNode, hkeys] at hrun
    cases f with
    | zero => simp [evalDirectives] at hrun
    | succ f2 =>
      simp only [evalDirectives, show ("for" == "for") = true from rfl, if_true,
        hexpr, hitems] at hrun
      cases hloop : evalForLoop E f2 ctx t (removeAttr attrs "data-iq.for")
          (forVariable expr) cs items with
      | error e =>
        rw [hloop] at hrun
        exact Except.noConfusion hrun
      | ok clones =>
        rw [hloop] at hrun
        cases f2 with
        | zero => simp [evalDirectives] at hrun
        | succ f3 =>
          simp only [evalDirectives, Except.ok.injEq] at hrun
          subst hrun
          have hkeys2 := directiveKeys_removeAttr_for attrs hkeys
          have hspec := evalForLoop_spec E items (f3 + 1) ctx t
            (removeAttr attrs "data-iq.for") (forVariable expr) cs clones hkeys2 hloop
          refine ⟨?_, hspec.1, hspec.2⟩
          have := congrArg List.length hspec.1
          simpa using this

/-- Witness for `for_directive_order_and_strip`: iterable yielding
3, 1, 2 renders three clones carrying 3, 1, 2 in that order, each with
the `for` attribute stripped. -/
theorem for_directive_order_and_strip_witness :
    ([DomNode.elem "LI" []
        (some { inputs := none, localCxt := [("x", JSValue.vNum 3)] }) [DomNode.text "t"],
      DomNode.elem "LI" []
        (some { inputs := none, localCxt := [("x", JSValue.vNum 1)] }) [DomNode.text "t"],
      DomNode.elem "LI" []
        (some { inputs := none, localCxt := [("x", JSValue.vNum 2)] }) [DomNode.text "t"]] :
      List DomNode).length =
      ([JSValue.vNum 3, JSValue.vNum 1, JSValue.vNum 2] : List JSValue).length ∧
    ([DomNode.elem "LI" []
        (some { inputs := none, localCxt := [("x", JSValue.vNum 3)] }) [DomNode.text "t"],
      DomNode.elem "LI" []
        (some { inputs := none, localCxt := [("x", JSValue.vNum 1)] }) [DomNode.text "t"],
      DomNode.elem "LI" []
        (some { inputs := none, localCxt := [("x", JSValue.vNum 2)] }) [DomNode.text "t"]] :
      List DomNode).map (fun n => localLookup n (forVariable "x of xs")) =
      ([JSValue.vNum 3, JSValue.vNum 1, JSValue.vNum 2] : List JSValue).map some ∧
    ∀ n ∈ ([DomNode.elem "LI" []
        (some { inputs := none, localCxt := [("x", JSValue.vNum 3)] }) [DomNode.text "t"],
      DomNode.elem "LI" []
        (some { inputs := none, localCxt := [("x", JSValue.vNum 1)] }) [DomNode.text "t"],
      DomNode.elem "LI" []
        (some { inputs := none, localCxt := [("x", JSValue.vNum 2)] }) [DomNode.text "t"]] :
      List DomNode), (attrNames (attrsOf n)).contains "data-iq.for" = false :=
  for_directive_order_and_strip demoEvaluator 12 [] "LI"
    [("data-iq.for", "x of xs")] none [DomNode.text "t"] "x of xs"
    [JSValue.vNum 3, JSValue.vNum 1, JSValue.vNum 2]
    [DomNode.elem "LI" []
        (some { inputs := none, localCxt := [("x", JSValue.vNum 3)] }) [DomNode.text "t"],
      DomNode.elem "LI" []
        (some { inputs := none, localCxt := [("x", JSValue.vNum 1)] }) [DomNode.text "t"],
      DomNode.elem "LI" []
        (some { inputs := none, localCxt := [("x", JSValue.vNum 2)] }) [DomNode.text "t"]]
    rfl rfl rfl rfl

/-- C8: a node whose only directive is `if` has its expression
evaluated against the context; when the result is falsy the node
evaluates to the neutral placeholder comment, which occupies its child
position; when the result is truthy the node is left in place for
normal attribute/text processing.  Since the placeholder is compared
equal by `_nodeChanged` on the next pass, the following sibling keeps
its index and is not wrongly replaced by the patcher. -/
theorem if_directive_placeholder
    (E : Evaluator) (fuel : Nat) (ctx : Context) (t : String)
    (attrs : List (String × String)) (m : Option NodeMeta) (cs cs2 : List DomNode)
    (e : String)
    (hkeys : directiveKeys attrs = ["if"])
    (hexpr : datasetGet attrs "if" = some e)
    (hcs : evalList E fuel ctx cs = .ok cs2) :
    ((saferEvalReturnV E e ctx).truthy = false →
      evalNode E (fuel + 3) ctx (.elem t attrs m cs) =
        .ok [.comment "iq.if removed node"]) ∧
    ((saferEvalReturnV E e ctx).truthy = true →
      evalNode E (fuel + 3) ctx (.elem t attrs m cs) =
        .ok [.elem t (attrs.map (fun a =>
          if nameHasIqDot a.fst then a
          else (a.fst, saferEvalTemplateS E a.snd ctx))) m cs2]) ∧
    (∀ c : String, nodeChanged (.comment c) (.comment c) = false) ∧
    (∀ x : DomNode, wfNode x = true →
      (patchChildren [.comment "iq.if removed node", x]
        [.comment "iq.if removed node", x]).fst =
        [.comment "iq.if removed node", x] ∧
      (patchChildren [.comment "iq.if removed node", x]
        [.comment "iq.if removed node", x]).snd.all PatchOp.isMetaOrInput = true) := by
  refine ⟨fun hf => ?_, fun ht => ?_, fun c => nodeChanged_self _, fun x hx => ?_⟩
  · simp only [evalNode, hkeys, evalDirectives,
      show ("if" == "for") = false from rfl, Bool.false_eq_true, if_false,
      show ("if" == "if") = true from rfl, if_true, hexpr, hf, hcs]
  · simp only [evalNode, hkeys, evalDirectives,
      show ("if" == "for") = false from rfl, Bool.false_eq_true, if_false,
      show ("if" == "if") = true from rfl, if_true, hexpr, ht, hcs]
  · exact patchChildren_self [.comment "iq.if removed node", x]
      (by simp [wfList, wfNode, hx])

/-- Witness for `if_directive_placeholder` at concrete inputs: the
expression evaluates to `false`, so the node becomes the placeholder
comment. -/
theorem if_directive_placeholder_witness :
    ((saferEvalReturnV demoEvaluator "cond" []).truthy = false →
      evalNode demoEvaluator 4 [] (.elem "SPAN" [("data-iq.if", "cond")] none []) =
        .ok [.comment "iq.if removed node"]) ∧
    (saferEvalReturnV demoEvaluator "cond" []).truthy = false ∧
    evalNode demoEvaluator 4 [] (.elem "SPAN" [("data-iq.if", "cond")] none []) =
      .ok [.comment "iq.if removed node"] :=
  have h := if_directive_placeholder demoEvaluator 1 [] "SPAN"
    [("data-iq.if", "cond")] none [] [] "cond" rfl rfl rfl
  ⟨fun _ => h.1 rfl, rfl, h.1 rfl⟩

/-- C2 counterexample: when the iterable expression of a `for`
directive fails to evaluate, `_saferEval` itself recovers (it returns
`undefined` after logging), but `_handleFor` then calls `forEach` on
that `undefined`, which throws an uncaught `TypeError`: the render walk
aborts with an error and the following sibling (here a text node) is
never rendered, contradicting the claim that rendering of sibling nodes
continues for every evaluation failure. -/
theorem for_eval_error_aborts_counterexample :
    failingEvaluator.forE "item of items" [] = none ∧
    evalList failingEvaluator 6 []
      [DomNode.elem "LI" [("data-iq.for", "item of items")] none [],
       DomNode.text "sibling"] =
      .error "TypeError: vnodes is undefined" :=
  ⟨rfl, rfl⟩

/-- C2 (amended): a failing template interpolation is caught and logged
and yields the empty string; a failing plain expression is caught and
logged and yields `undefined`; a sibling after a recovered failing text
node is still rendered.  However, when the iterable expression of a
`for` directive fails, the recovered `undefined` is then iterated by
`_handleFor`, which throws an uncaught `TypeError` that aborts the
render pass — siblings after the `for` node are not rendered. -/
theorem eval_error_recovery_and_for_abort :
    (∀ (E : Evaluator) (tpl : String) (ctx : Context), E.tplE tpl ctx = none →
      saferEvalTemplateS E tpl ctx = "" ∧ saferEvalTemplateLogged E tpl ctx = true) ∧
    (∀ (E : Evaluator) (js : String) (ctx : Context), E.retE js ctx = none →
      saferEvalReturnV E js ctx = JSValue.vUndefined ∧
        saferEvalReturnLogged E js ctx = true) ∧
    (∀ (E : Evaluator) (fuel : Nat) (ctx : Context) (s : String)
        (rest rs : List DomNode), evalList E (fuel + 1) ctx rest = .ok rs →
      evalList E (fuel + 2) ctx (.text s :: rest) =
        .ok (.text (saferEvalTemplateS E s ctx) :: rs)) ∧
    (∀ (E : Evaluator) (fuel : Nat) (ctx : Context) (t : String)
        (attrs : List (String × String)) (m : Option NodeMeta)
        (cs rest : List DomNode) (expr : String),
      directiveKeys attrs = ["for"] → datasetGet attrs "for" = some expr →
      E.forE expr ctx = none →
      evalList E (fuel + 3) ctx (.elem t attrs m cs :: rest) =
        .error "TypeError: vnodes is undefined") := by
  refine ⟨fun E tpl ctx h => ?_, fun E js ctx h => ?_,
    fun E fuel ctx s rest rs h => ?_, fun E fuel ctx t attrs m cs rest expr hk he hf => ?_⟩
  · simp [saferEvalTemplateS, saferEvalTemplateLogged, h]
  · simp [saferEvalReturnV, saferEvalReturnLogged, h]
  · simp only [evalList, evalNode, h, List.singleton_append]
  · simp only [evalList, evalNode, hk, evalDirectives,
      show ("for" == "for") = true from rfl, if_true, he, hf]

/-- Witness for `eval_error_recovery_and_for_abort` at concrete
inputs. -/
theorem eval_error_recovery_and_for_abort_witness :
    (saferEvalTemplateS failingEvaluator "hello" [] = "" ∧
      saferEvalTemplateLogged failingEvaluator "hello" [] = true) ∧
    (saferEvalReturnV failingEvaluator "x + 1" [] = JSValue.vUndefined ∧
      saferEvalReturnLogged failingEvaluator "x + 1" [] = true) ∧
    evalList failingEvaluator 3 [] [DomNode.text "hello", DomNode.text "b"] =
      .ok [DomNode.text "", DomNode.text ""] ∧
    evalList failingEvaluator 4 []
      [DomNode.elem "LI" [("data-iq.for", "item of items")] none []] =
      .error "TypeError: vnodes is undefined" :=
  ⟨(eval_error_recovery_and_for_abort).1 failingEvaluator "hello" [] rfl,
   (eval_error_recovery_and_for_abort).2.1 failingEvaluator "x + 1" [] rfl,
   (eval_error_recovery_and_for_abort).2.2.1 failingEvaluator 1 [] "hello"
     [DomNode.text "b"] [DomNode.text ""] rfl,
   (eval_error_recovery_and_for_abort).2.2.2 failingEvaluator 1 [] "LI"
     [("data-iq.for", "item of items")] none [] [] "item of items" rfl rfl rfl⟩
